import Mathlib

/-!
Verification of the 4DSplat stereo-render orchestration layer.

The Python sources `ply_to_stereo.py`, `render_ply_to_image.py` and
`tools/run_spatial_pipeline.py` are embedded shallowly below:

* filenames are Lean `String`s; directories are association lists
  `List (String × Nat)` (name ↦ byte size) for inputs and `List String`
  for the set of output image names;
* Python `int(...)` applied to a string is modelled by `pyInt` for ASCII
  strings (optional surrounding whitespace, optional sign, digits with
  single underscores between digits, per PEP 515);
* the external `brush-render` process is abstracted as an exit-code
  oracle, and file contents (PLY camera metadata) as a metadata oracle;
* machine floats are modelled by `ℚ`; every concrete value appearing in
  the claims (60, 0.5, 1000, 960/1920, 0.064/2, …) is computed exactly by
  both `float` arithmetic and `ℚ`.
-/

set_option maxRecDepth 4000

namespace FourDSplat

/-! ### ASCII digit helpers -/

/-- Value of an ASCII decimal digit, `none` for every other character. -/
def digitVal? (c : Char) : Option Nat :=
  if c = '0' then some 0
  else if c = '1' then some 1
  else if c = '2' then some 2
  else if c = '3' then some 3
  else if c = '4' then some 4
  else if c = '5' then some 5
  else if c = '6' then some 6
  else if c = '7' then some 7
  else if c = '8' then some 8
  else if c = '9' then some 9
  else none

/-- `true` iff `c` is an ASCII decimal digit. -/
def isDigB (c : Char) : Bool := (digitVal? c).isSome

/-- The ASCII digit character for `d < 10` (clamped to `'9'` above). -/
def digitChar (d : Nat) : Char :=
  if d = 0 then '0'
  else if d = 1 then '1'
  else if d = 2 then '2'
  else if d = 3 then '3'
  else if d = 4 then '4'
  else if d = 5 then '5'
  else if d = 6 then '6'
  else if d = 7 then '7'
  else if d = 8 then '8'
  else '9'

/-- Decimal printing worker; the fuel argument only bounds the recursion
depth (any fuel at least the number printed is enough). -/
def toDigCharsAux : Nat → Nat → List Char → List Char
  | 0, _, acc => acc
  | fuel + 1, n, acc =>
    if n < 10 then digitChar n :: acc
    else toDigCharsAux fuel (n / 10) (digitChar (n % 10) :: acc)

/-- Decimal digit characters of `n`, most significant first. -/
def toDigChars (n : Nat) : List Char := toDigCharsAux (n + 1) n []

/-- Left-pad a digit list with `'0'` to width `w` (Python `{:0wd}`). -/
def padZeros (w : Nat) (ds : List Char) : List Char :=
  List.replicate (w - ds.length) '0' ++ ds

/-- Numeric value of a digit list (non-digits count as 0; only applied to
digit lists). -/
def digitsVal (l : List Char) : Nat :=
  l.foldl (fun a c => 10 * a + (digitVal? c).getD 0) 0

/-! ### A model of Python `int(str)` for ASCII strings -/

/-- ASCII whitespace stripped by Python `int()`. -/
def isPyWS (c : Char) : Bool :=
  c = ' ' || c = '\t' || c = '\n' || c = '\r' || c = '\x0b' || c = '\x0c'

/-- Strip whitespace from both ends. -/
def stripWS (l : List Char) : List Char :=
  ((l.dropWhile isPyWS).reverse.dropWhile isPyWS).reverse

/-- Walk a digits-with-underscores body: every char is a digit, or an
underscore squeezed between two digits; the last char is a digit. -/
def chainOk : Char → List Char → Bool
  | p, [] => isDigB p
  | p, c :: cs => (isDigB c || (c = '_' && isDigB p)) && chainOk c cs

/-- Valid digit body of a Python integer literal (PEP 515 underscores). -/
def validUN : List Char → Bool
  | [] => false
  | c :: cs => isDigB c && chainOk c cs

/-- Parse an unsigned digit body. -/
def parseUN (l : List Char) : Option Nat :=
  if validUN l then some (digitsVal (l.filter (fun c => c ≠ '_'))) else none

/-- Sign-and-digits part of Python `int(s)`, applied after whitespace
stripping. -/
def pyIntCore : List Char → Option Int
  | [] => none
  | c :: rest =>
    if c = '-' then (parseUN rest).map (fun n => -(n : Int))
    else if c = '+' then (parseUN rest).map (fun n => (n : Int))
    else (parseUN (c :: rest)).map (fun n => (n : Int))

/-- Model of Python `int(s)` on a character list: strip whitespace, then
optional sign, then a digit body; `none` models `ValueError`. -/
def pyIntL (s : List Char) : Option Int := pyIntCore (stripWS s)

/-- Model of Python `int(s)`. -/
def pyInt (s : String) : Option Int := pyIntL s.data

/-! ### Filename helpers (`startswith`, `endswith`, `replace`, `Path.stem`) -/

/-- Python `str.startswith` on character lists. -/
def startsWithCL (pat l : List Char) : Bool :=
  decide (l.take pat.length = pat)

/-- Python `str.endswith` on character lists. -/
def endsWithCL (pat l : List Char) : Bool :=
  decide (l.drop (l.length - pat.length) = pat) && decide (pat.length ≤ l.length)

/-- Python `s.replace("_left", "")`: delete every non-overlapping
occurrence of `_left`, scanning left to right. -/
def replaceLeftCL : List Char → List Char
  | '_' :: 'l' :: 'e' :: 'f' :: 't' :: rest => replaceLeftCL rest
  | c :: rest => c :: replaceLeftCL rest
  | [] => []

/-- Python `s.replace("_right", "")`. -/
def replaceRightCL : List Char → List Char
  | '_' :: 'r' :: 'i' :: 'g' :: 'h' :: 't' :: rest => replaceRightCL rest
  | c :: rest => c :: replaceRightCL rest
  | [] => []

/-- Python `pathlib.Path(name).stem`: drop the final `.suffix` when the
last dot is neither the first nor the last character. -/
def stemCL (l : List Char) : List Char :=
  match l.reverse.findIdx? (fun c => c = '.') with
  | none => l
  | some ri =>
    let i := l.length - 1 - ri
    if 0 < i ∧ i < l.length - 1 then l.take i else l

/-- `Path.stem` on strings. -/
def stemStr (s : String) : String := ⟨stemCL s.data⟩

/-! ### `render_ply_to_image.py`: parameter resolver, command builder,
stereo planner -/

/-- The entries of the embedded 3×3 intrinsic matrix (row-major), as
parsed by `parse_ply_metadata`.  `float32` values are modelled by `ℚ`. -/
structure M33 where
  m00 : ℚ
  m01 : ℚ
  m02 : ℚ
  m10 : ℚ
  m11 : ℚ
  m12 : ℚ
  m20 : ℚ
  m21 : ℚ
  m22 : ℚ
deriving DecidableEq

/-- Result of `parse_ply_metadata`: optional intrinsics and optional
image size (width, height); a parse failure yields `(none, none)`. -/
structure PlyMeta where
  intrinsics : Option M33
  imageSize : Option (Int × Int)
deriving DecidableEq

/-- The override fields consulted by `resolve_render_params` (the
relevant attributes of the argparse namespace / `RenderArgs`). -/
structure RArgs where
  width : Option Int
  height : Option Int
  fov_x : Option ℚ
  fov_y : Option ℚ
  focal_x : Option ℚ
  focal_y : Option ℚ
  center_x : Option ℚ
  center_y : Option ℚ
  use_ply_camera : Bool
deriving DecidableEq

/-- `RenderArgs()` in `ply_to_stereo.py`: no overrides, embedded camera
metadata enabled. -/
def plyToStereoArgs : RArgs :=
  ⟨none, none, none, none, none, none, none, none, true⟩

/-- The dict returned by `resolve_render_params`. -/
structure RP where
  width : Int
  height : Int
  fov_x : Option ℚ
  fov_y : Option ℚ
  focal_x : Option ℚ
  focal_y : Option ℚ
  center_x : ℚ
  center_y : ℚ
deriving DecidableEq

/-- Translation of `resolve_render_params` (render_ply_to_image.py,
lines 92–136).  The metadata argument stands for the result of
`parse_ply_metadata ply_path`. -/
def resolve_render_params (meta : PlyMeta) (args : RArgs) : RP :=
  let intrinsics : Option M33 := if args.use_ply_camera then meta.intrinsics else none
  let image_size : Option (Int × Int) := if args.use_ply_camera then meta.imageSize else none
  let width : Int :=
    match args.width with
    | some w => w
    | none => match image_size with
      | some sz => sz.1
      | none => 1920
  let height : Int :=
    match args.height with
    | some h => h
    | none => match image_size with
      | some sz => sz.2
      | none => 1080
  let focal_x : Option ℚ :=
    match args.focal_x, intrinsics with
    | none, some m => some m.m00
    | f, _ => f
  let focal_y : Option ℚ :=
    match args.focal_y, intrinsics with
    | none, some m => some m.m11
    | f, _ => f
  let center_x₁ : Option ℚ :=
    match args.center_x, intrinsics with
    | none, some m => if width ≠ 0 then some (m.m02 / (width : ℚ)) else none
    | c, _ => c
  let center_y₁ : Option ℚ :=
    match args.center_y, intrinsics with
    | none, some m => if height ≠ 0 then some (m.m12 / (height : ℚ)) else none
    | c, _ => c
  let center_x : ℚ := center_x₁.getD 0.5
  let center_y : ℚ := center_y₁.getD 0.5
  let fov_x : Option ℚ :=
    match args.fov_x, focal_x with
    | none, none => some 60
    | f, _ => f
  let fov_y : Option ℚ := args.fov_y
  ⟨width, height, fov_x, fov_y, focal_x, focal_y, center_x, center_y⟩

/-- The resolver precedence exactly as the specification words it:
override, else embedded metadata, else default.  Normalizing the
principal point by the resolved width/height is only possible when that
dimension is nonzero (Python guards the division with `and width`). -/
def resolveParamsSpec (meta : PlyMeta) (args : RArgs) : RP :=
  let intr : Option M33 := if args.use_ply_camera then meta.intrinsics else none
  let isz : Option (Int × Int) := if args.use_ply_camera then meta.imageSize else none
  let width : Int := (args.width <|> isz.map Prod.fst).getD 1920
  let height : Int := (args.height <|> isz.map Prod.snd).getD 1080
  let focal_x : Option ℚ := args.focal_x <|> intr.map M33.m00
  let focal_y : Option ℚ := args.focal_y <|> intr.map M33.m11
  let center_x : ℚ :=
    (args.center_x <|>
      (if width ≠ 0 then intr.map (fun m => m.m02 / (width : ℚ)) else none)).getD 0.5
  let center_y : ℚ :=
    (args.center_y <|>
      (if height ≠ 0 then intr.map (fun m => m.m12 / (height : ℚ)) else none)).getD 0.5
  let fov_x : Option ℚ := args.fov_x <|> (if focal_x = none then some 60 else none)
  ⟨width, height, fov_x, args.fov_y, focal_x, focal_y, center_x, center_y⟩

/-- `str(x)` for numbers; the exact decimal rendering is irrelevant to
the claims (only the literal flag tokens are inspected). -/
def ratStr (q : ℚ) : String := toString q

/-- `str(x)` for integers. -/
def intStr (n : Int) : String := toString n

/-- Translation of `build_brush_command` (render_ply_to_image.py,
lines 139–195): the argv list handed to the external renderer. -/
def build_brush_command (brush_bin ply_path output_path : String)
    (width height : Option Int) (fov_x fov_y focal_x focal_y : Option ℚ)
    (center_x center_y : ℚ) (cam_pos : ℚ × ℚ × ℚ) (cam_rot : ℚ × ℚ × ℚ × ℚ)
    (background : ℚ × ℚ × ℚ) (subsample_points : Option Int)
    (extra_args : List String) : List String :=
  [brush_bin, ply_path, "--output", output_path]
    ++ (match width with
        | some w => ["--width", intStr w]
        | none => [])
    ++ (match height with
        | some h => ["--height", intStr h]
        | none => [])
    ++ (match fov_x with
        | some v => ["--fov-x", ratStr v]
        | none => [])
    ++ ["--center-x", ratStr center_x, "--center-y", ratStr center_y]
    ++ ["--cam-pos", ratStr cam_pos.1, ratStr cam_pos.2.1, ratStr cam_pos.2.2,
        "--cam-rot", ratStr cam_rot.1, ratStr cam_rot.2.1, ratStr cam_rot.2.2.1,
        ratStr cam_rot.2.2.2,
        "--background", ratStr background.1, ratStr background.2.1, ratStr background.2.2]
    ++ (match fov_y with
        | some v => ["--fov-y", ratStr v]
        | none => [])
    ++ (match focal_x with
        | some v => ["--focal-x", ratStr v]
        | none => [])
    ++ (match focal_y with
        | some v => ["--focal-y", ratStr v]
        | none => [])
    ++ (match subsample_points with
        | some v => ["--subsample-points", intStr v]
        | none => [])
    ++ extra_args

/-- Translation of `stereo_camera_positions` (render_ply_to_image.py,
lines 249–253).  The Python 3-element position lists become triples. -/
def stereo_camera_positions (cam_pos : ℚ × ℚ × ℚ) (ipd : ℚ) :
    (ℚ × ℚ × ℚ) × (ℚ × ℚ × ℚ) :=
  let half := ipd * 0.5
  ((cam_pos.1 - half, cam_pos.2.1, cam_pos.2.2),
   (cam_pos.1 + half, cam_pos.2.1, cam_pos.2.2))

/-! ### `ply_to_stereo.py`: watcher and per-frame orchestration

The input directory is an association list of `(filename, byte size)`;
the output directory is the list of image filenames present.  The
external renderer process is abstracted by an exit-code oracle
`rc : String → Eye → Int` (exit status of the brush invocation for a
given PLY file and eye), and the on-disk PLY metadata by an oracle
`meta : String → PlyMeta`. -/

/-- One of the two stereo eyes. -/
inductive Eye
  | left
  | right
deriving DecidableEq

/-- Observable actions of the orchestrator for a frame: running the
parameter resolver, and invoking the external renderer for one eye. -/
inductive Ev
  | resolveEv (ply : String)
  | invokeEv (ply : String) (eye : Eye)
deriving DecidableEq

/-- The PLY filename an event concerns. -/
def Ev.ply : Ev → String
  | .resolveEv p => p
  | .invokeEv p _ => p

/-- `f"{ply_path.stem}_left.png"`. -/
def leftPng (stem : String) : String := ⟨stem.data ++ "_left.png".data⟩

/-- `f"{ply_path.stem}_right.png"`. -/
def rightPng (stem : String) : String := ⟨stem.data ++ "_right.png".data⟩

/-- Translation of `should_process` (ply_to_stereo.py, lines 188–193):
process unless both eye outputs already exist. -/
def should_process (outs : List String) (ply : String) : Bool :=
  let l := leftPng (stemStr ply)
  let r := rightPng (stemStr ply)
  !(outs.contains l && outs.contains r)

/-- The pure core of `is_stable`: the previous recorded size must exist,
equal the current size, and be positive. -/
def is_stable_step (last : Option Nat) (size : Nat) : Bool :=
  last == some size && decide (size > 0)

/-- `seen_sizes[ply_path] = size` on the association-list model of the
`seen_sizes` dict. -/
def setSeen : List (String × Nat) → String → Nat → List (String × Nat)
  | [], p, s => [(p, s)]
  | (q, t) :: rest, p, s =>
    if q = p then (p, s) :: rest else (q, t) :: setSeen rest p s

/-- Translation of `is_stable` (ply_to_stereo.py, lines 195–199):
returns the verdict together with the updated `seen_sizes` map. -/
def is_stable (seen : List (String × Nat)) (ply : String) (size : Nat) :
    Bool × List (String × Nat) :=
  (is_stable_step (seen.lookup ply) size, setSeen seen ply size)

/-- Byte size of a directory entry (`stat().st_size`); the lookup always
succeeds for entries produced by the directory listing. -/
def lookupSize (fs : List (String × Nat)) (ply : String) : Nat :=
  (fs.lookup ply).getD 0

/-- `ply_path.unlink()`. -/
def eraseFile (fs : List (String × Nat)) (ply : String) : List (String × Nat) :=
  fs.filter (fun e => e.1 ≠ ply)

/-- Outcome of `render_stereo_from_ply`: the emitted events, the output
directory afterwards, and the `RuntimeError` message if it raised. -/
structure StereoRes where
  trace : List Ev
  outs : List String
  err : Option String
deriving DecidableEq

/-- Translation of `render_stereo_from_ply` (ply_to_stereo.py, lines
58–108): resolve parameters, plan the stereo cameras, render left then
right, raising on the first non-zero exit status.  The renderer writes
the eye's output image exactly when its exit status is 0. -/
def render_stereo_from_ply (meta : String → PlyMeta) (rc : String → Eye → Int)
    (ipd : ℚ) (ply : String) (outs : List String) : StereoRes :=
  let _params := resolve_render_params (meta ply) plyToStereoArgs
  let _poses := stereo_camera_positions (0, 0, 0) ipd
  let s := stemStr ply
  let codeL := rc ply Eye.left
  if codeL ≠ 0 then
    ⟨[.resolveEv ply, .invokeEv ply Eye.left], outs,
      some ("brush-render failed for " ++ ply ++ " (left)")⟩
  else
    let outs₁ := outs ++ [leftPng s]
    let codeR := rc ply Eye.right
    if codeR ≠ 0 then
      ⟨[.resolveEv ply, .invokeEv ply Eye.left, .invokeEv ply Eye.right], outs₁,
        some ("brush-render failed for " ++ ply ++ " (right)")⟩
    else
      ⟨[.resolveEv ply, .invokeEv ply Eye.left, .invokeEv ply Eye.right],
        outs₁ ++ [rightPng s], none⟩

/-- Translation of `ply_index` (ply_to_stereo.py, lines 48–55): numeric
index from a `frame_<int>` stem, 0 on any other stem or parse failure.
`name.split("_", 1)[1]` is everything after the first underscore, which
for a stem starting with `frame_` is the stem minus its first 6
characters. -/
def ply_index (name : String) : Int :=
  let st := stemCL name.data
  if startsWithCL "frame_".data st then (pyIntL (st.drop 6)).getD 0 else 0

/-- Translation of `list_ply_files` (ply_to_stereo.py, lines 111–114)
for a directory input: the `*.ply` entries sorted by `ply_index`.
Python's `sorted` is a stable sort, as is `List.insertionSort`, so the
two agree on every input. -/
def list_ply_files (fs : List (String × Nat)) : List String :=
  List.insertionSort (fun a b => ply_index a ≤ ply_index b)
    ((fs.map Prod.fst).filter (fun n => endsWithCL ".ply".data n.data))

/-- Outcome of one `process_once` poll cycle. -/
structure CycleRes where
  trace : List Ev
  fs : List (String × Nat)
  outs : List String
  seen : List (String × Nat)
  err : Option String
  renderedAny : Bool
deriving DecidableEq

/-- The `for ply_path in ply_files` loop body of `process_once`
(ply_to_stereo.py, lines 201–217).  A raised `RuntimeError` aborts the
cycle (the exception propagates out of `process_once`). -/
def processFiles (watch keepTemp : Bool) (meta : String → PlyMeta)
    (rc : String → Eye → Int) (ipd : ℚ) :
    List String → List (String × Nat) → List String → List (String × Nat) → CycleRes
  | [], fs, outs, seen => ⟨[], fs, outs, seen, none, false⟩
  | f :: rest, fs, outs, seen =>
    if should_process outs f = false then
      processFiles watch keepTemp meta rc ipd rest fs outs seen
    else
      let chk := if watch then is_stable seen f (lookupSize fs f) else (true, seen)
      if chk.1 = false then
        processFiles watch keepTemp meta rc ipd rest fs outs chk.2
      else
        let r := render_stereo_from_ply meta rc ipd f outs
        match r.err with
        | some e => ⟨r.trace, fs, r.outs, chk.2, some e, true⟩
        | none =>
          let fs' := if keepTemp then fs else eraseFile fs f
          let rec' := processFiles watch keepTemp meta rc ipd rest fs' r.outs chk.2
          ⟨r.trace ++ rec'.trace, rec'.fs, rec'.outs, rec'.seen, rec'.err, true⟩

/-- Translation of `process_once` (ply_to_stereo.py, lines 201–217). -/
def process_once (watch keepTemp : Bool) (meta : String → PlyMeta)
    (rc : String → Eye → Int) (ipd : ℚ) (fs : List (String × Nat))
    (outs : List String) (seen : List (String × Nat)) : CycleRes :=
  let ply_files := list_ply_files fs
  if ply_files.isEmpty then ⟨[], fs, outs, seen, none, false⟩
  else processFiles watch keepTemp meta rc ipd ply_files fs outs seen

/-! ### The sequential (`--sequential`) watch loop -/

/-- Translation of `frame_index_from_stem` (ply_to_stereo.py, lines
223–229). -/
def frame_index_from_stem (stem : String) : Option Int :=
  if startsWithCL "frame_".data stem.data then pyIntL (stem.data.drop 6) else none

/-- `output_dir.glob("frame_*_left.png")` membership: the name
decomposes as `frame_` ++ mid ++ `_left.png`. -/
def matchesLeftGlob (name : String) : Bool :=
  startsWithCL "frame_".data name.data && endsWithCL "_left.png".data name.data
    && decide (15 ≤ name.data.length)

/-- `output_dir.glob("frame_*_right.png")` membership. -/
def matchesRightGlob (name : String) : Bool :=
  startsWithCL "frame_".data name.data && endsWithCL "_right.png".data name.data
    && decide (16 ≤ name.data.length)

/-- Translation of `next_expected_index` (ply_to_stereo.py, lines
231–243): collect an index from every output matching either eye glob,
then one past the maximum, or 0 when nothing matched. -/
def next_expected_index (outs : List String) : Int :=
  let lefts := (outs.filter matchesLeftGlob).filterMap
    (fun p => frame_index_from_stem ⟨replaceLeftCL (stemCL p.data)⟩)
  let rights := (outs.filter matchesRightGlob).filterMap
    (fun p => frame_index_from_stem ⟨replaceRightCL (stemCL p.data)⟩)
  match lefts ++ rights with
  | [] => 0
  | x :: xs => xs.foldl max x + 1

/-- Python `f"{n:06d}"`: sign, then digits zero-padded so the whole
rendering is at least 6 characters wide. -/
def pad6Int (n : Int) : String :=
  if n < 0 then ⟨'-' :: padZeros 5 (toDigChars (-n).toNat)⟩
  else ⟨padZeros 6 (toDigChars n.toNat)⟩

/-- `f"frame_{expected_index:06d}.ply"`. -/
def expectedName (n : Int) : String :=
  ⟨"frame_".data ++ (pad6Int n).data ++ ".ply".data⟩

/-- Outcome of one iteration of the sequential watch loop. -/
structure SeqRes where
  trace : List Ev
  fs : List (String × Nat)
  outs : List String
  seen : List (String × Nat)
  expected : Int
  slept : Bool
  err : Option String
deriving DecidableEq

/-- Translation of one iteration of the `--sequential` branch of the
watch loop (ply_to_stereo.py, lines 247–260): look only for the exact
expected filename; when it exists, render it if it passes
`should_process` and `is_stable` (short-circuit: `is_stable` only runs
when `should_process` held), then advance the index either way; when it
does not exist, sleep. -/
def seq_iteration (meta : String → PlyMeta) (rc : String → Eye → Int)
    (ipd : ℚ) (keepTemp : Bool) (fs : List (String × Nat))
    (outs : List String) (seen : List (String × Nat)) (expected : Int) : SeqRes :=
  let name := expectedName expected
  if (fs.lookup name).isSome then
    if should_process outs name then
      let chk := is_stable seen name (lookupSize fs name)
      if chk.1 then
        let r := render_stereo_from_ply meta rc ipd name outs
        match r.err with
        | some e => ⟨r.trace, fs, r.outs, chk.2, expected, false, some e⟩
        | none =>
          ⟨r.trace, if keepTemp then fs else eraseFile fs name, r.outs, chk.2,
            expected + 1, false, none⟩
      else ⟨[], fs, outs, chk.2, expected + 1, false, none⟩
    else ⟨[], fs, outs, seen, expected + 1, false, none⟩
  else ⟨[], fs, outs, seen, expected, true, none⟩

/-! ### `tools/run_spatial_pipeline.py`: batch fan-out over the pool

`ThreadPoolExecutor.submit` is called once per PLY file; leaving the
`with` block calls `shutdown(wait=True)` without cancelling futures, so
every submitted task runs to completion whatever its siblings do.  The
per-frame subprocess is abstracted by an exit-code oracle; `check=True`
turns a non-zero exit into a `CalledProcessError` naming the command
(hence the frame). -/

/-- The `CalledProcessError` message for a failed frame's render
command; it names the frame's file. -/
def cpeMsg (ply : String) : String :=
  ⟨"Command rendering ".data ++ ply.data ++ " returned non-zero exit status".data⟩

/-- `render_with_ply_to_stereo` under `check=True`: `none` on success,
the raised error otherwise. -/
def render_with_ply_to_stereo (rc : String → Int) (ply : String) : Option String :=
  if rc ply ≠ 0 then some (cpeMsg ply) else none

/-- The worker pool runs every submitted frame to completion and records
each outcome (`ThreadPoolExecutor` with no cancellation). -/
def runPool (rc : String → Int) (frames : List String) :
    List (String × Option String) :=
  frames.map (fun f => (f, render_with_ply_to_stereo rc f))

/-- Translation of the `for future in futures: future.result()` loop
(run_spatial_pipeline.py, lines 196–204): iterate outcomes in submission
order and re-raise the first recorded exception. -/
def awaitAll : List (String × Option String) → Except String Unit
  | [] => .ok ()
  | (_, some e) :: _ => .error e
  | (_, none) :: rest => awaitAll rest

/-- Eligibility of one file across a sequence of poll-cycle size
observations: each cycle runs `is_stable`, which records the size and
compares it with the previously recorded one; the value after the final
observation is returned (`none` as initial state = fresh watcher). -/
def observeRun (last : Option Nat) : List Nat → Bool
  | [] => false
  | [s] => is_stable_step last s
  | s :: rest => observeRun (some s) rest

/-- The frames a poll cycle yielded for rendering, in order: one
`resolveEv` event is emitted per rendered frame, when its render job
starts. -/
def resolveOrder (tr : List Ev) : List String :=
  tr.filterMap (fun e => match e with
    | .resolveEv p => some p
    | .invokeEv _ _ => none)

/-- Lexicographic (code-point) order on character lists — the order
Python's `sorted` uses on plain strings. -/
def lexLeCL : List Char → List Char → Bool
  | [], _ => true
  | _ :: _, [] => false
  | a :: as, b :: bs =>
    if a.toNat < b.toNat then true
    else if a.toNat = b.toNat then lexLeCL as bs
    else false

/-- Lexicographic filename order on strings. -/
def lexLeStr (a b : String) : Prop := lexLeCL a.data b.data = true

instance : DecidableRel lexLeStr := fun a b => by
  unfold lexLeStr
  infer_instance

/-- The canonical left-eye output name `frame_<6-digit index>_left.png`
(specification §6 naming convention). -/
def leftNameC (i : Nat) : String :=
  ⟨"frame_".data ++ padZeros 6 (toDigChars i) ++ "_left.png".data⟩

/-- The canonical right-eye output name. -/
def rightNameC (i : Nat) : String :=
  ⟨"frame_".data ++ padZeros 6 (toDigChars i) ++ "_right.png".data⟩

/-- The index of a canonically-named left output, if the name is one. -/
def canonLeftIdx? (nm : String) : Option Nat :=
  let l := nm.data
  if startsWithCL "frame_".data l && endsWithCL "_left.png".data l
      && decide (15 ≤ l.length) then
    let mid := (l.drop 6).take (l.length - 15)
    if !mid.isEmpty && mid.all isDigB then some (digitsVal mid) else none
  else none

/-- The expected-next-index initializer as the specification claims it:
one past the highest frame index that is FULLY rendered — both canonical
eye outputs present — or 0 when there is none. -/
def specNextFullyRendered (outs : List String) : Int :=
  let full := (outs.filterMap canonLeftIdx?).filter
    (fun i => outs.contains (rightNameC i))
  match full with
  | [] => 0
  | x :: xs => ((xs.foldl Nat.max x : Nat) : Int) + 1

/-! ## Theorems -/

/-- C8: for every base camera position and every interpupillary distance
(zero and negative included), the stereo planner offsets only the X
component by ± ipd/2; concretely, base (0,0,0) with ipd = 0.064 gives
left (−0.032, 0, 0) and right (0.032, 0, 0). -/
theorem stereo_planner_symmetric_offsets :
    (∀ x y z ipd : ℚ, stereo_camera_positions (x, y, z) ipd =
      ((x - ipd / 2, y, z), (x + ipd / 2, y, z))) ∧
    stereo_camera_positions (0, 0, 0) 0.064 = ((-0.032, 0, 0), (0.032, 0, 0)) := by
  constructor
  · intro x y z ipd
    simp only [stereo_camera_positions, Prod.mk.injEq]
    norm_num
    ring
  · simp only [stereo_camera_positions, Prod.mk.injEq]
    norm_num

/-- C9: a frame is eligible after an observation sequence exactly when
the last two observations are equal and non-zero; a single observation is
never enough on a fresh watcher; sizes 100,100 pass, 100,150 fail, and
100,150,150 pass again (a size change resets the stability clock). -/
theorem watcher_stability_two_cycles :
    (∀ (prev : Option Nat) (xs : List Nat) (a b : Nat),
      observeRun prev (xs ++ [a, b]) = (a == b && decide (0 < b))) ∧
    (∀ a : Nat, observeRun none [a] = false) ∧
    observeRun none [100, 100] = true ∧
    observeRun none [100, 150] = false ∧
    observeRun none [100, 150, 150] = true := by
  refine ⟨?_, ?_, by decide, by decide, by decide⟩
  · intro prev xs a b
    induction xs generalizing prev with
    | nil => simp [observeRun, is_stable_step]
    | cons x xs ih =>
      have hne : xs ++ [a, b] ≠ [] := by simp
      obtain ⟨c, cs, hc⟩ : ∃ c cs, xs ++ [a, b] = c :: cs := by
        cases h : xs ++ [a, b] with
        | nil => exact absurd h hne
        | cons c cs => exact ⟨c, cs, rfl⟩
      calc observeRun prev ((x :: xs) ++ [a, b])
          = observeRun (some x) (xs ++ [a, b]) := by
            rw [List.cons_append, hc]; rfl
        _ = (a == b && decide (0 < b)) := ih (some x)
  · intro a
    simp [observeRun, is_stable_step]

/-- C1 (bug evidence): a fresh sequential watcher over an input directory
holding a fully written `frame_000000.ply` (size 100, both output images
absent) advances `expected_index` from 0 to 1 on its first poll without
rendering anything — `is_stable` returns false on a first observation,
yet the counter still advances — and on the next poll it sleeps waiting
for `frame_000001.ply`, so frame 0 is skipped forever. -/
theorem seq_watch_skips_unstable_frame :
    (seq_iteration (fun _ => ⟨none, none⟩) (fun _ _ => 0) 1 true
        [("frame_000000.ply", 100)] [] [] 0) =
      ⟨[], [("frame_000000.ply", 100)], [], [("frame_000000.ply", 100)], 1, false, none⟩ ∧
    (seq_iteration (fun _ => ⟨none, none⟩) (fun _ _ => 0) 1 true
        [("frame_000000.ply", 100)] [] [("frame_000000.ply", 100)] 1).slept = true := by
  constructor
  · decide
  · decide

/-- C4 (counterexample): in a 5-frame batch where the renders of frames 2
and 4 both fail, the batch result carries only the first failure (frame
2); the full set of failed frames is {2, 4}, which a single
`CalledProcessError` naming frame 2 cannot report. -/
theorem batch_reports_only_first_failure :
    (awaitAll (runPool
        (fun f => if f = "frame_000002.ply" || f = "frame_000004.ply" then 1 else 0)
        ["frame_000000.ply", "frame_000001.ply", "frame_000002.ply",
          "frame_000003.ply", "frame_000004.ply"]) =
      .error (cpeMsg "frame_000002.ply")) ∧
    (["frame_000000.ply", "frame_000001.ply", "frame_000002.ply",
        "frame_000003.ply", "frame_000004.ply"].filter
      (fun f => (render_with_ply_to_stereo
        (fun f => if f = "frame_000002.ply" || f = "frame_000004.ply" then 1 else 0)
        f).isSome) =
      ["frame_000002.ply", "frame_000004.ply"]) ∧
    cpeMsg "frame_000002.ply" ≠ cpeMsg "frame_000004.ply" := by
  refine ⟨by rfl, by decide, by decide⟩

/-- C4 (amended): the pool runs every submitted frame to completion
regardless of sibling failures; the batch succeeds iff every frame's
render exited 0; otherwise the first failing frame in submission order is
the one reported (the full failed set is not aggregated). -/
theorem batch_first_failure_semantics (rc : String → Int) (frames : List String) :
    (runPool rc frames).map Prod.fst = frames ∧
    (awaitAll (runPool rc frames) = .ok () ↔ ∀ f ∈ frames, rc f = 0) ∧
    (match frames.find? (fun f => rc f != 0) with
      | none => awaitAll (runPool rc frames) = .ok ()
      | some f => awaitAll (runPool rc frames) = .error (cpeMsg f)) := by
  refine ⟨?_, ?_, ?_⟩
  · induction frames with
    | nil => rfl
    | cons f fs ih => simpa [runPool] using ih
  · induction frames with
    | nil => simp [runPool, awaitAll]
    | cons f fs ih =>
      by_cases h : rc f = 0
      · simpa [runPool, render_with_ply_to_stereo, awaitAll, h] using ih
      · simp [runPool, render_with_ply_to_stereo, awaitAll, h]
  · induction frames with
    | nil => simp [runPool, awaitAll]
    | cons f fs ih =>
      by_cases h : rc f = 0
      · have hb : (rc f != 0) = false := by simp [bne, h]
        simpa [runPool, render_with_ply_to_stereo, awaitAll, List.find?_cons, hb, h]
          using ih
      · have hb : (rc f != 0) = true := by simp [bne, h]
        simp [runPool, render_with_ply_to_stereo, awaitAll, List.find?_cons, hb, h]

/-- Closed instance of C4's amended claim: a two-frame batch with no
failures runs both frames and succeeds. -/
theorem batch_first_failure_semantics_witness :
    (runPool (fun _ => 0) ["a.ply", "b.ply"]).map Prod.fst = ["a.ply", "b.ply"] ∧
    (∀ f ∈ ["a.ply", "b.ply"], (fun _ : String => (0 : Int)) f = 0) ∧
    awaitAll (runPool (fun _ => 0) ["a.ply", "b.ply"]) = .ok () :=
  ⟨(batch_first_failure_semantics (fun _ => 0) ["a.ply", "b.ply"]).1,
    fun _ _ => rfl,
    (batch_first_failure_semantics (fun _ => 0) ["a.ply", "b.ply"]).2.1.mpr
      (fun _ _ => rfl)⟩

/-- C5: for every frame the left eye is attempted before the right; a
non-zero left exit aborts the frame before any right invocation; a
failure message names the frame's file and the failing eye. -/
theorem render_stereo_left_first_fail_fast (meta : String → PlyMeta)
    (rc : String → Eye → Int) (ipd : ℚ) (ply : String) (outs : List String) :
    (render_stereo_from_ply meta rc ipd ply outs).trace =
      Ev.resolveEv ply :: Ev.invokeEv ply Eye.left ::
        (if rc ply Eye.left = 0 then [Ev.invokeEv ply Eye.right] else []) ∧
    (rc ply Eye.left ≠ 0 →
      (render_stereo_from_ply meta rc ipd ply outs).err =
        some ("brush-render failed for " ++ ply ++ " (left)")) ∧
    (rc ply Eye.left = 0 → rc ply Eye.right ≠ 0 →
      (render_stereo_from_ply meta rc ipd ply outs).err =
        some ("brush-render failed for " ++ ply ++ " (right)")) := by
  by_cases hl : rc ply Eye.left = 0 <;> by_cases hr : rc ply Eye.right = 0 <;>
    simp [render_stereo_from_ply, hl, hr]

/-- Closed instance of C5: with a renderer whose left-eye invocation
exits 1, the frame's trace stops after the left invocation and the error
names the file and the left eye. -/
theorem render_stereo_left_first_fail_fast_witness :
    (1 : Int) ≠ 0 ∧
    (render_stereo_from_ply (fun _ => ⟨none, none⟩)
        (fun _ e => if e = Eye.left then 1 else 0) 1 "frame_000000.ply" []).err =
      some ("brush-render failed for " ++ "frame_000000.ply" ++ " (left)") :=
  ⟨by decide,
    (render_stereo_left_first_fail_fast (fun _ => ⟨none, none⟩)
      (fun _ e => if e = Eye.left then 1 else 0) 1 "frame_000000.ply" []).2.1
      (by decide)⟩

/-- Extensionality for resolved parameter sets. -/
theorem RPeq (p q : RP) (h1 : p.width = q.width) (h2 : p.height = q.height)
    (h3 : p.fov_x = q.fov_x) (h4 : p.fov_y = q.fov_y) (h5 : p.focal_x = q.focal_x)
    (h6 : p.focal_y = q.focal_y) (h7 : p.center_x = q.center_x)
    (h8 : p.center_y = q.center_y) : p = q := by
  cases p; cases q; simp_all

/-- C6: the resolver obeys the claimed precedence (override, else
embedded metadata, else default) for every input, and the two concrete
resolutions from the specification hold exactly. -/
theorem resolver_precedence :
    (∀ (meta : PlyMeta) (args : RArgs),
      resolve_render_params meta args = resolveParamsSpec meta args) ∧
    resolve_render_params ⟨none, none⟩ plyToStereoArgs =
      ⟨1920, 1080, some 60, none, none, none, 0.5, 0.5⟩ ∧
    ((resolve_render_params ⟨some ⟨1000, 0, 960, 0, 1000, 540, 0, 0, 1⟩,
        some (1920, 1080)⟩ plyToStereoArgs).focal_x = some 1000 ∧
      (resolve_render_params ⟨some ⟨1000, 0, 960, 0, 1000, 540, 0, 0, 1⟩,
        some (1920, 1080)⟩ plyToStereoArgs).focal_y = some 1000 ∧
      (resolve_render_params ⟨some ⟨1000, 0, 960, 0, 1000, 540, 0, 0, 1⟩,
        some (1920, 1080)⟩ plyToStereoArgs).center_x = 0.5 ∧
      (resolve_render_params ⟨some ⟨1000, 0, 960, 0, 1000, 540, 0, 0, 1⟩,
        some (1920, 1080)⟩ plyToStereoArgs).center_y = 0.5) := by
  refine ⟨?_, by rfl, ?_⟩
  · rintro ⟨mi, ms⟩ ⟨w, h, fx, fy, ox, oy, cx, cy, u⟩
    refine RPeq _ _ ?_ ?_ ?_ rfl ?_ ?_ ?_ ?_ <;>
      simp only [resolve_render_params, resolveParamsSpec]
    · cases u <;> cases w <;> cases ms <;> simp
    · cases u <;> cases h <;> cases ms <;> simp
    · cases u <;> cases fx <;> cases ox <;> cases mi <;> simp
    · cases u <;> cases ox <;> cases mi <;> simp
    · cases u <;> cases oy <;> cases mi <;> simp
    · cases u <;> cases cx <;> cases mi <;> cases w <;> cases ms <;> simp
    · cases u <;> cases cy <;> cases mi <;> cases h <;> cases ms <;> simp
  · refine ⟨by rfl, by rfl, ?_, ?_⟩ <;>
      · simp [resolve_render_params, plyToStereoArgs]
        norm_num

/-- If the resolver left `fov_x` unset then it resolved a focal length
(the 60° default fires exactly when both are absent). -/
theorem resolve_fov_none_focal_some (meta : PlyMeta) (args : RArgs)
    (h : (resolve_render_params meta args).fov_x = none) :
    ∃ q, (resolve_render_params meta args).focal_x = some q := by
  obtain ⟨mi, ms⟩ := meta
  obtain ⟨w, hh, fx, fy, ox, oy, cx, cy, u⟩ := args
  cases u <;> cases mi <;> cases fx <;> cases ox <;>
    simp_all [resolve_render_params]

/-- C7: every renderer command built from a resolved parameter set
carries a horizontal projection flag: it contains `--fov-x` or
`--focal-x`. -/
theorem renderer_invocation_has_horizontal (meta : PlyMeta) (args : RArgs)
    (bin ply out : String) (pos : ℚ × ℚ × ℚ) (rot : ℚ × ℚ × ℚ × ℚ)
    (bg : ℚ × ℚ × ℚ) (sub : Option Int) (extra : List String) :
    "--fov-x" ∈ build_brush_command bin ply out
        (some (resolve_render_params meta args).width)
        (some (resolve_render_params meta args).height)
        (resolve_render_params meta args).fov_x
        (resolve_render_params meta args).fov_y
        (resolve_render_params meta args).focal_x
        (resolve_render_params meta args).focal_y
        (resolve_render_params meta args).center_x
        (resolve_render_params meta args).center_y pos rot bg sub extra ∨
    "--focal-x" ∈ build_brush_command bin ply out
        (some (resolve_render_params meta args).width)
        (some (resolve_render_params meta args).height)
        (resolve_render_params meta args).fov_x
        (resolve_render_params meta args).fov_y
        (resolve_render_params meta args).focal_x
        (resolve_render_params meta args).focal_y
        (resolve_render_params meta args).center_x
        (resolve_render_params meta args).center_y pos rot bg sub extra := by
  cases hf : (resolve_render_params meta args).fov_x with
  | some v =>
    left
    simp [build_brush_command, hf]
  | none =>
    right
    obtain ⟨q, hq⟩ := resolve_fov_none_focal_some meta args hf
    simp [build_brush_command, hf, hq]

/-- A frame whose two outputs are both present fails `should_process`. -/
theorem should_process_done (outs : List String) (ply : String)
    (hl : leftPng (stemStr ply) ∈ outs) (hr : rightPng (stemStr ply) ∈ outs) :
    should_process outs ply = false := by
  simp [should_process]
  exact ⟨hl, hr⟩

/-- Rendering a frame only ever adds files to the output directory. -/
theorem render_stereo_outs_mono (meta : String → PlyMeta) (rc : String → Eye → Int)
    (ipd : ℚ) (ply : String) (outs : List String) (a : String) (h : a ∈ outs) :
    a ∈ (render_stereo_from_ply meta rc ipd ply outs).outs := by
  by_cases hl : rc ply Eye.left = 0 <;> by_cases hr : rc ply Eye.right = 0 <;>
    simp [render_stereo_from_ply, hl, hr, h]

/-- Every event emitted while rendering frame `f` concerns `f`. -/
theorem render_stereo_trace_filter_ne (meta : String → PlyMeta)
    (rc : String → Eye → Int) (ipd : ℚ) (f ply : String) (outs : List String)
    (hne : f ≠ ply) :
    (render_stereo_from_ply meta rc ipd f outs).trace.filter
      (fun e => e.ply == ply) = [] := by
  by_cases hl : rc f Eye.left = 0 <;> by_cases hr : rc f Eye.right = 0 <;>
    simp [render_stereo_from_ply, hl, hr, Ev.ply, hne]

/-- No event of a poll cycle concerns a frame whose two outputs already
existed when the cycle started. -/
theorem processFiles_skips_done (watch keepTemp : Bool) (meta : String → PlyMeta)
    (rc : String → Eye → Int) (ipd : ℚ) (ply : String) (l : List String) :
    ∀ fs outs seen, leftPng (stemStr ply) ∈ outs → rightPng (stemStr ply) ∈ outs →
      (processFiles watch keepTemp meta rc ipd l fs outs seen).trace.filter
        (fun e => e.ply == ply) = [] := by
  induction l with
  | nil => intro fs outs seen _ _; simp [processFiles]
  | cons f rest ih =>
    intro fs outs seen hl hr
    by_cases hsp : should_process outs f = false
    · rw [show processFiles watch keepTemp meta rc ipd (f :: rest) fs outs seen =
        processFiles watch keepTemp meta rc ipd rest fs outs seen by
          simp [processFiles, hsp]]
      exact ih fs outs seen hl hr
    · have hne : f ≠ ply := by
        intro he
        exact hsp (he ▸ should_process_done outs ply hl hr)
      rw [processFiles]
      rw [if_neg hsp]
      set chk := (if watch then is_stable seen f (lookupSize fs f) else (true, seen))
        with hchk
      by_cases hst : chk.1 = false
      · rw [if_pos hst]
        exact ih fs outs chk.2 hl hr
      · rw [if_neg hst]
        cases herr : (render_stereo_from_ply meta rc ipd f outs).err with
        | some e =>
          simp only [herr]
          exact render_stereo_trace_filter_ne meta rc ipd f ply outs hne
        | none =>
          simp only [herr, List.filter_append]
          rw [render_stereo_trace_filter_ne meta rc ipd f ply outs hne]
          rw [ih _ _ chk.2
            (render_stereo_outs_mono meta rc ipd f outs _ hl)
            (render_stereo_outs_mono meta rc ipd f outs _ hr)]
          rfl

/-- C3: for every frame whose left and right output images both already
exist, a poll cycle emits no event at all for that frame: the renderer
is never invoked for either eye and the parameter resolver never runs. -/
theorem done_frame_never_resubmitted (watch keepTemp : Bool)
    (meta : String → PlyMeta) (rc : String → Eye → Int) (ipd : ℚ)
    (fs : List (String × Nat)) (outs : List String) (seen : List (String × Nat))
    (ply : String) (hl : leftPng (stemStr ply) ∈ outs)
    (hr : rightPng (stemStr ply) ∈ outs) :
    (process_once watch keepTemp meta rc ipd fs outs seen).trace.filter
      (fun e => e.ply == ply) = [] := by
  unfold process_once
  by_cases hemp : (list_ply_files fs).isEmpty
  · rw [if_pos hemp]
    rfl
  · rw [if_neg hemp]
    exact processFiles_skips_done watch keepTemp meta rc ipd ply _ fs outs seen hl hr

/-- Closed instance of C3: with `a.ply` already rendered (both outputs
present) alongside a fresh `b.ply`, the cycle's trace contains no event
for `a.ply`. -/
theorem done_frame_never_resubmitted_witness :
    leftPng (stemStr "a.ply") ∈ ["a_left.png", "a_right.png"] ∧
    rightPng (stemStr "a.ply") ∈ ["a_left.png", "a_right.png"] ∧
    (process_once false true (fun _ => ⟨none, none⟩) (fun _ _ => 0) 1
        [("a.ply", 5), ("b.ply", 7)] ["a_left.png", "a_right.png"] []).trace.filter
      (fun e => e.ply == "a.ply") = [] :=
  ⟨by decide, by decide,
    done_frame_never_resubmitted false true (fun _ => ⟨none, none⟩) (fun _ _ => 0) 1
      [("a.ply", 5), ("b.ply", 7)] ["a_left.png", "a_right.png"] [] "a.ply"
      (by decide) (by decide)⟩

/-- C10 (counterexample): with candidates `frame_10.ply` and
`frame_2.ply` (both stable, neither done), the cycle renders
`frame_2.ply` first — numeric index order — whereas lexicographic
filename order puts `frame_10.ply` first. -/
theorem unordered_yield_not_lexicographic :
    resolveOrder (process_once true true (fun _ => ⟨none, none⟩) (fun _ _ => 0) 1
        [("frame_10.ply", 5), ("frame_2.ply", 7)] []
        [("frame_10.ply", 5), ("frame_2.ply", 7)]).trace =
      ["frame_2.ply", "frame_10.ply"] ∧
    List.insertionSort lexLeStr ["frame_10.ply", "frame_2.ply"] =
      ["frame_10.ply", "frame_2.ply"] ∧
    (["frame_2.ply", "frame_10.ply"] : List String) ≠
      ["frame_10.ply", "frame_2.ply"] := by
  refine ⟨by decide, by decide, by decide⟩

/-- The candidate list is sorted by the numeric frame index. -/
theorem list_ply_files_sorted_by_index (fs : List (String × Nat)) :
    (list_ply_files fs).Pairwise (fun a b => ply_index a ≤ ply_index b) := by
  haveI : IsTotal String (fun a b => ply_index a ≤ ply_index b) :=
    ⟨fun a b => Int.le_total _ _⟩
  haveI : IsTrans String (fun a b => ply_index a ≤ ply_index b) :=
    ⟨fun _ _ _ => Int.le_trans⟩
  exact List.sorted_insertionSort _ _

/-- A frame's render emits exactly one resolver event, for itself. -/
theorem render_stereo_resolveOrder (meta : String → PlyMeta)
    (rc : String → Eye → Int) (ipd : ℚ) (f : String) (outs : List String) :
    resolveOrder (render_stereo_from_ply meta rc ipd f outs).trace = [f] := by
  by_cases hl : rc f Eye.left = 0 <;> by_cases hr : rc f Eye.right = 0 <;>
    simp [render_stereo_from_ply, resolveOrder, hl, hr]

/-- The frames a cycle yields form a subsequence of the files it
iterated over. -/
theorem processFiles_resolveOrder_sublist (watch keepTemp : Bool)
    (meta : String → PlyMeta) (rc : String → Eye → Int) (ipd : ℚ)
    (l : List String) :
    ∀ fs outs seen,
      List.Sublist
        (resolveOrder (processFiles watch keepTemp meta rc ipd l fs outs seen).trace)
        l := by
  induction l with
  | nil => intro fs outs seen; simp [processFiles, resolveOrder]
  | cons f rest ih =>
    intro fs outs seen
    by_cases hsp : should_process outs f = false
    · rw [show processFiles watch keepTemp meta rc ipd (f :: rest) fs outs seen =
        processFiles watch keepTemp meta rc ipd rest fs outs seen by
          simp [processFiles, hsp]]
      exact (ih fs outs seen).cons f
    · rw [processFiles, if_neg hsp]
      set chk := (if watch then is_stable seen f (lookupSize fs f) else (true, seen))
        with hchk
      by_cases hst : chk.1 = false
      · rw [if_pos hst]
        exact (ih fs outs chk.2).cons f
      · rw [if_neg hst]
        cases herr : (render_stereo_from_ply meta rc ipd f outs).err with
        | some e =>
          simp only [herr]
          rw [show resolveOrder (render_stereo_from_ply meta rc ipd f outs).trace = [f]
            from render_stereo_resolveOrder meta rc ipd f outs]
          exact List.Sublist.cons₂ f (List.nil_sublist rest)
        | none =>
          simp only [herr]
          show List.Sublist (resolveOrder
            ((render_stereo_from_ply meta rc ipd f outs).trace ++ _)) _
          rw [resolveOrder, List.filterMap_append]
          rw [show List.filterMap _ (render_stereo_from_ply meta rc ipd f outs).trace =
            [f] from render_stereo_resolveOrder meta rc ipd f outs]
          exact List.Sublist.cons₂ f (ih _ _ chk.2)

/-- Appending one character list on the right is injective on strings. -/
theorem strAppendRightInj (s t : String) (pat : List Char)
    (h : (⟨s.data ++ pat⟩ : String) = ⟨t.data ++ pat⟩) : s = t := by
  have hd : s.data ++ pat = t.data ++ pat := congrArg String.data h
  have : s.data = t.data := List.append_cancel_right hd
  cases s; cases t; simp_all

/-- A `_left.png` name never equals a `_right.png` name. -/
theorem leftPng_ne_rightPng (s t : String) : leftPng s ≠ rightPng t := by
  intro h
  have hd : s.data ++ "_left.png".data = t.data ++ "_right.png".data :=
    congrArg String.data h
  have h9 := congrArg (fun l => l.reverse.take 9) hd
  simp only [List.reverse_append] at h9
  rw [List.take_append_of_le_length (by decide),
    List.take_append_of_le_length (by decide)] at h9
  exact absurd h9 (by decide)

/-- `should_process` of a frame is unchanged by output files belonging
to a different stem. -/
theorem should_process_append_other (outs : List String) (ex : List String)
    (g : String) (fstem : String) (hst : stemStr g ≠ fstem)
    (hex : ∀ a ∈ ex, a = leftPng fstem ∨ a = rightPng fstem) :
    should_process (outs ++ ex) g = should_process outs g := by
  have hL : (leftPng (stemStr g) ∈ ex) = False := by
    simp only [eq_iff_iff, iff_false]
    intro hm
    rcases hex _ hm with h | h
    · exact hst (strAppendRightInj _ _ _ h)
    · exact leftPng_ne_rightPng (stemStr g) fstem h
  have hR : (rightPng (stemStr g) ∈ ex) = False := by
    simp only [eq_iff_iff, iff_false]
    intro hm
    rcases hex _ hm with h | h
    · exact (leftPng_ne_rightPng fstem (stemStr g)) h.symm
    · exact hst (strAppendRightInj _ _ _ h)
  simp [should_process, List.elem_iff, hL, hR]

/-- A successful render writes exactly the frame's two eye images. -/
theorem render_stereo_ok (meta : String → PlyMeta) (rc : String → Eye → Int)
    (ipd : ℚ) (f : String) (outs : List String) (hL : rc f Eye.left = 0)
    (hR : rc f Eye.right = 0) :
    (render_stereo_from_ply meta rc ipd f outs).outs =
      outs ++ [leftPng (stemStr f), rightPng (stemStr f)] ∧
    (render_stereo_from_ply meta rc ipd f outs).err = none := by
  simp [render_stereo_from_ply, hL, hR]

/-- Recording one file's size leaves other files' entries unchanged. -/
theorem lookup_setSeen_ne (m : List (String × Nat)) (p : String) (s : Nat)
    (q : String) (h : q ≠ p) : (setSeen m p s).lookup q = m.lookup q := by
  induction m with
  | nil =>
    have hb : (q == p) = false := by simp [h]
    simp [setSeen, List.lookup, hb]
  | cons e rest ih =>
    obtain ⟨k, v⟩ := e
    by_cases hk : k = p
    · subst hk
      have hb : (q == k) = false := by simp [h]
      simp [setSeen, List.lookup, hb]
    · simp only [setSeen, if_neg hk, List.lookup]
      cases hq : q == k <;> simp [hq, ih]

/-- Deleting one file leaves other files' sizes unchanged. -/
theorem lookupSize_erase_ne (fs : List (String × Nat)) (f g : String)
    (h : g ≠ f) : lookupSize (eraseFile fs f) g = lookupSize fs g := by
  induction fs with
  | nil => rfl
  | cons e rest ih =>
    obtain ⟨k, v⟩ := e
    by_cases hk : k = f
    · have hp : decide ((k, v).1 ≠ f) = false := by simp [hk]
      have hb : (g == k) = false := by
        have : g ≠ k := hk ▸ h
        simp [this]
      simp only [eraseFile, List.filter_cons, hp] at ih ⊢
      simp only [Bool.false_eq_true, if_false]
      simp [lookupSize, List.lookup, hb]
      simpa [lookupSize, eraseFile] using ih
    · have hp : decide ((k, v).1 ≠ f) = true := by simp [hk]
      simp only [eraseFile] at ih ⊢
      rw [List.filter_cons, hp]
      simp only [if_pos rfl]
      cases hq : g == k <;>
        simp only [lookupSize, List.lookup, hq] <;>
        first
        | rfl
        | simpa [lookupSize] using ih

/-- `resolveOrder` distributes over trace concatenation. -/
theorem resolveOrder_append (a b : List Ev) :
    resolveOrder (a ++ b) = resolveOrder a ++ resolveOrder b :=
  List.filterMap_append _ _ _

/-- When every render succeeds and the candidates have distinct stems, a
poll cycle yields exactly the candidates that pass the already-done and
(in watch mode) stability filters, evaluated against the cycle's
starting state. -/
theorem processFiles_yield_exact (watch keepTemp : Bool) (meta : String → PlyMeta)
    (rc : String → Eye → Int) (ipd : ℚ) (hrc : ∀ f e, rc f e = 0) (l : List String) :
    ∀ fs outs seen, (l.map stemStr).Nodup →
      resolveOrder (processFiles watch keepTemp meta rc ipd l fs outs seen).trace =
        l.filter (fun f => should_process outs f &&
          (!watch || (is_stable seen f (lookupSize fs f)).1)) := by
  induction l with
  | nil => intro fs outs seen _; simp [processFiles, resolveOrder]
  | cons f rest ih =>
    intro fs outs seen hnd
    have hnd' : (stemStr f :: rest.map stemStr).Nodup := by simpa using hnd
    have hndr : (rest.map stemStr).Nodup := (List.nodup_cons.mp hnd').2
    have hstem : ∀ g ∈ rest, stemStr g ≠ stemStr f := by
      intro g hg he
      exact (List.nodup_cons.mp hnd').1 (he ▸ List.mem_map_of_mem stemStr hg)
    have hgne : ∀ g ∈ rest, g ≠ f := by
      intro g hg he
      exact hstem g hg (by rw [he])
    have hex : ∀ a ∈ [leftPng (stemStr f), rightPng (stemStr f)],
        a = leftPng (stemStr f) ∨ a = rightPng (stemStr f) := by
      intro a ha
      simpa using ha
    by_cases hsp : should_process outs f = false
    · rw [show processFiles watch keepTemp meta rc ipd (f :: rest) fs outs seen =
        processFiles watch keepTemp meta rc ipd rest fs outs seen by
          simp [processFiles, hsp]]
      rw [ih fs outs seen hndr, List.filter_cons]
      simp [hsp]
    · have hsp' : should_process outs f = true := by
        cases h : should_process outs f
        · exact absurd h hsp
        · rfl
      obtain ⟨ho, he⟩ := render_stereo_ok meta rc ipd f outs (hrc f .left) (hrc f .right)
      rw [processFiles, if_neg hsp]
      cases watch with
      | false =>
        rw [if_neg (by decide : ¬((false : Bool) = true))]
        rw [if_neg (by simp :
          ¬(((true, seen) : Bool × List (String × Nat)).1 = false))]
        simp only [he]
        rw [resolveOrder_append, render_stereo_resolveOrder]
        rw [List.filter_cons]
        have hcf : (should_process outs f &&
            (!(false : Bool) || (is_stable seen f (lookupSize fs f)).1)) = true := by
          simp [hsp']
        rw [hcf, if_pos rfl]
        show f :: resolveOrder (processFiles false keepTemp meta rc ipd rest
          (if keepTemp then fs else eraseFile fs f)
          (render_stereo_from_ply meta rc ipd f outs).outs (true, seen).2).trace = _
        rw [ih _ _ _ hndr]
        congr 1
        refine List.filter_congr ?_
        intro g hg
        have h1 : should_process (render_stereo_from_ply meta rc ipd f outs).outs g =
            should_process outs g := by
          rw [ho]
          exact should_process_append_other outs _ g (stemStr f) (hstem g hg) hex
        simp [h1]
      | true =>
        rw [if_pos rfl]
        set chk := is_stable seen f (lookupSize fs f) with hchk
        by_cases hst : chk.1 = false
        · rw [if_pos hst]
          rw [ih fs outs chk.2 hndr]
          rw [List.filter_cons]
          have hcf : (should_process outs f &&
              (!(true : Bool) || (is_stable seen f (lookupSize fs f)).1)) = false := by
            rw [← hchk] at *
            simp [hst]
          rw [hcf]
          simp only [Bool.false_eq_true, if_false]
          refine List.filter_congr ?_
          intro g hg
          have h2 : (is_stable chk.2 g (lookupSize fs g)).1 =
              (is_stable seen g (lookupSize fs g)).1 := by
            have : chk.2 = setSeen seen f (lookupSize fs f) := by rw [hchk]; rfl
            rw [this]
            simp only [is_stable]
            rw [lookup_setSeen_ne seen f (lookupSize fs f) g (hgne g hg)]
          simp [h2]
        · rw [if_neg hst]
          simp only [he]
          rw [resolveOrder_append, render_stereo_resolveOrder]
          rw [List.filter_cons]
          have hstt : chk.1 = true := by
            cases h : chk.1
            · exact absurd h hst
            · rfl
          have hcf : (should_process outs f &&
              (!(true : Bool) || (is_stable seen f (lookupSize fs f)).1)) = true := by
            rw [← hchk] at *
            simp [hsp', hstt]
          rw [hcf, if_pos rfl]
          show f :: resolveOrder (processFiles true keepTemp meta rc ipd rest
            (if keepTemp then fs else eraseFile fs f)
            (render_stereo_from_ply meta rc ipd f outs).outs chk.2).trace = _
          rw [ih _ _ _ hndr]
          congr 1
          refine List.filter_congr ?_
          intro g hg
          have h1 : should_process (render_stereo_from_ply meta rc ipd f outs).outs g =
              should_process outs g := by
            rw [ho]
            exact should_process_append_other outs _ g (stemStr f) (hstem g hg) hex
          have h3 : lookupSize (if keepTemp then fs else eraseFile fs f) g =
              lookupSize fs g := by
            cases keepTemp
            · simp only [Bool.false_eq_true, if_false]
              exact lookupSize_erase_ne fs f g (hgne g hg)
            · rfl
          have h2 : (is_stable chk.2 g (lookupSize fs g)).1 =
              (is_stable seen g (lookupSize fs g)).1 := by
            have : chk.2 = setSeen seen f (lookupSize fs f) := by rw [hchk]; rfl
            rw [this]
            simp only [is_stable]
            rw [lookup_setSeen_ne seen f (lookupSize fs f) g (hgne g hg)]
          simp [h1, h2, h3]

/-- `digitChar` and `digitVal?` are mutually inverse below 10. -/
theorem digitVal_digitChar (d : Nat) (h : d < 10) :
    digitVal? (digitChar d) = some d := by
  interval_cases d <;> decide

/-- `digitChar` produces digits below 10. -/
theorem isDigB_digitChar (d : Nat) (h : d < 10) : isDigB (digitChar d) = true := by
  simp [isDigB, digitVal_digitChar d h]

/-- Appending one digit multiplies the value by ten and adds it. -/
theorem digitsVal_append_single (xs : List Char) (c : Char) :
    digitsVal (xs ++ [c]) = 10 * digitsVal xs + (digitVal? c).getD 0 := by
  simp [digitsVal, List.foldl_append]

/-- A digit is not any of the filename punctuation characters. -/
theorem digit_char_props (c : Char) (h : isDigB c = true) :
    c ≠ '_' ∧ c ≠ '-' ∧ c ≠ '+' ∧ isPyWS c = false ∧ c ≠ 'l' ∧ c ≠ 'r' ∧ c ≠ '.' := by
  unfold isDigB digitVal? at h
  split_ifs at h with h0 h1 h2 h3 h4 h5 h6 h7 h8 h9 <;>
    first
    | (subst_vars; decide)
    | simp_all

/-- Specification of the decimal printing worker: with enough fuel it
prepends a non-empty digit string whose value is the number printed. -/
theorem toDigCharsAux_spec :
    ∀ fuel n acc, n ≤ fuel →
      ∃ ds, toDigCharsAux (fuel + 1) n acc = ds ++ acc ∧ ds ≠ [] ∧
        (∀ c ∈ ds, isDigB c = true) ∧ digitsVal ds = n := by
  intro fuel
  induction fuel using Nat.strong_induction_on with
  | _ fuel ih =>
    intro n acc hn
    by_cases h10 : n < 10
    · refine ⟨[digitChar n], ?_, by simp, ?_, ?_⟩
      · simp [toDigCharsAux, h10]
      · intro c hc
        simp only [List.mem_singleton] at hc
        subst hc
        exact isDigB_digitChar n h10
      · simp [digitsVal, digitVal_digitChar n h10]
    · have hn10 : 10 ≤ n := Nat.le_of_not_lt h10
      obtain ⟨fuel', rfl⟩ : ∃ f, fuel = f + 1 := ⟨fuel - 1, by omega⟩
      have hdiv : n / 10 ≤ fuel' := by
        have := Nat.div_lt_self (by omega : 0 < n) (by omega : 1 < 10)
        omega
      obtain ⟨ds', hds', hne', hdig', hval'⟩ :=
        ih fuel' (by omega) (n / 10) (digitChar (n % 10) :: acc) hdiv
      refine ⟨ds' ++ [digitChar (n % 10)], ?_, by simp [hne'], ?_, ?_⟩
      · rw [show toDigCharsAux (fuel' + 1 + 1) n acc =
          toDigCharsAux (fuel' + 1) (n / 10) (digitChar (n % 10) :: acc) by
            simp [toDigCharsAux, h10]]
        rw [hds', List.append_assoc]
        rfl
      · intro c hc
        rcases List.mem_append.mp hc with h | h
        · exact hdig' c h
        · simp only [List.mem_singleton] at h
          subst h
          exact isDigB_digitChar _ (Nat.mod_lt _ (by omega))
      · rw [digitsVal_append_single, hval',
          digitVal_digitChar _ (Nat.mod_lt _ (by omega))]
        simp [Nat.div_add_mod]

/-- Decimal printing round-trip facts. -/
theorem toDigChars_spec (n : Nat) :
    toDigChars n ≠ [] ∧ (∀ c ∈ toDigChars n, isDigB c = true) ∧
      digitsVal (toDigChars n) = n := by
  obtain ⟨ds, hds, hne, hdig, hval⟩ := toDigCharsAux_spec n n [] (le_refl n)
  unfold toDigChars
  rw [hds, List.append_nil]
  exact ⟨hne, hdig, hval⟩

/-- Zero-padding preserves digit-string membership. -/
theorem padZeros_digits (w : Nat) (ds : List Char)
    (h : ∀ c ∈ ds, isDigB c = true) : ∀ c ∈ padZeros w ds, isDigB c = true := by
  intro c hc
  rcases List.mem_append.mp hc with hz | hd
  · rw [List.eq_of_mem_replicate hz]
    decide
  · exact h c hd

/-- Zero-padding does not change the numeric value. -/
theorem digitsVal_padZeros (w : Nat) (ds : List Char) :
    digitsVal (padZeros w ds) = digitsVal ds := by
  unfold padZeros
  generalize w - ds.length = k
  induction k with
  | zero => simp
  | succ k ihk =>
    rw [List.replicate_succ, List.cons_append]
    show List.foldl _ ((10 * 0) + (digitVal? '0').getD 0) _ = _
    simpa [digitsVal] using ihk

/-- Padding a non-empty digit string keeps it non-empty. -/
theorem padZeros_ne_nil (w : Nat) (ds : List Char) (h : ds ≠ []) :
    padZeros w ds ≠ [] := by
  unfold padZeros
  simp [h]

/-- `dropWhile` is the identity on lists with no matching element. -/
theorem dropWhile_none (p : Char → Bool) (l : List Char)
    (h : ∀ c ∈ l, p c = false) : l.dropWhile p = l := by
  cases l with
  | nil => rfl
  | cons c rest => simp [List.dropWhile_cons, h c (by simp)]

/-- Whitespace stripping is the identity on digit strings. -/
theorem stripWS_digits (l : List Char) (h : ∀ c ∈ l, isDigB c = true) :
    stripWS l = l := by
  have hws : ∀ c ∈ l, isPyWS c = false := fun c hc => (digit_char_props c (h c hc)).2.2.2.1
  unfold stripWS
  rw [dropWhile_none _ _ hws, dropWhile_none, List.reverse_reverse]
  intro c hc
  exact hws c (List.mem_reverse.mp hc)

/-- `chainOk` accepts any digit string. -/
theorem chainOk_digits (cs : List Char) :
    ∀ p, isDigB p = true → (∀ c ∈ cs, isDigB c = true) → chainOk p cs = true := by
  induction cs with
  | nil => intro p hp _; simpa [chainOk] using hp
  | cons c rest ih =>
    intro p hp h
    have hc : isDigB c = true := h c (by simp)
    simp only [chainOk, hc, Bool.true_or, Bool.true_and]
    exact ih c hc (fun d hd => h d (by simp [hd]))

/-- `validUN` accepts any non-empty digit string. -/
theorem validUN_digits (l : List Char) (hne : l ≠ [])
    (h : ∀ c ∈ l, isDigB c = true) : validUN l = true := by
  cases l with
  | nil => exact absurd rfl hne
  | cons c rest =>
    have hc : isDigB c = true := h c (by simp)
    simp only [validUN, hc, Bool.true_and]
    exact chainOk_digits rest c hc (fun d hd => h d (by simp [hd]))

/-- Digit strings contain no underscore to filter out. -/
theorem filter_no_underscore (l : List Char) (h : ∀ c ∈ l, isDigB c = true) :
    l.filter (fun c => c ≠ '_') = l := by
  rw [List.filter_eq_self]
  intro c hc
  simp [(digit_char_props c (h c hc)).1]

/-- Python `int` on a non-empty digit string returns its value. -/
theorem pyIntL_digits (l : List Char) (hne : l ≠ [])
    (h : ∀ c ∈ l, isDigB c = true) : pyIntL l = some (digitsVal l : Int) := by
  unfold pyIntL
  rw [stripWS_digits l h]
  cases l with
  | nil => exact absurd rfl hne
  | cons c rest =>
    have hc := digit_char_props c (h c (by simp))
    rw [pyIntCore, if_neg hc.2.1, if_neg hc.2.2.1]
    unfold parseUN
    rw [if_pos (validUN_digits _ (by simp) h), filter_no_underscore _ h]
    rfl

/-- Python `int` of a zero-padded canonical index is that index. -/
theorem pyIntL_pad6 (n : Nat) :
    pyIntL (padZeros 6 (toDigChars n)) = some (n : Int) := by
  obtain ⟨hne, hdig, hval⟩ := toDigChars_spec n
  rw [pyIntL_digits _ (padZeros_ne_nil 6 _ hne) (padZeros_digits 6 _ hdig),
    digitsVal_padZeros, hval]

/-- `replace("_left", "")` passes over a non-underscore character. -/
theorem replaceLeftCL_cons_ne (c : Char) (l : List Char) (hc : c ≠ '_') :
    replaceLeftCL (c :: l) = c :: replaceLeftCL l := by
  rw [replaceLeftCL.eq_def]
  split
  · simp_all
  · next a b hx heq =>
    injection heq with h1 h2
    subst h1
    subst h2
    rfl
  · simp_all

/-- `replace("_left", "")` passes over an underscore not followed by
`l`. -/
theorem replaceLeftCL_underscore_ne (d : Char) (l : List Char) (hd : d ≠ 'l') :
    replaceLeftCL ('_' :: d :: l) = '_' :: replaceLeftCL (d :: l) := by
  rw [replaceLeftCL.eq_def]
  split
  · simp_all
  · next a b hx heq =>
    injection heq with h1 h2
    subst h1
    subst h2
    rfl
  · simp_all

/-- `replace("_right", "")` passes over a non-underscore character. -/
theorem replaceRightCL_cons_ne (c : Char) (l : List Char) (hc : c ≠ '_') :
    replaceRightCL (c :: l) = c :: replaceRightCL l := by
  rw [replaceRightCL.eq_def]
  split
  · simp_all
  · next a b hx heq =>
    injection heq with h1 h2
    subst h1
    subst h2
    rfl
  · simp_all

/-- `replace("_right", "")` passes over an underscore not followed by
`r`. -/
theorem replaceRightCL_underscore_ne (d : Char) (l : List Char) (hd : d ≠ 'r') :
    replaceRightCL ('_' :: d :: l) = '_' :: replaceRightCL (d :: l) := by
  rw [replaceRightCL.eq_def]
  split
  · simp_all
  · next a b hx heq =>
    injection heq with h1 h2
    subst h1
    subst h2
    rfl
  · simp_all

/-- Deleting `_left` from a digit string followed by `_left` leaves the
digits. -/
theorem replaceLeftCL_digits (ds : List Char) (h : ∀ c ∈ ds, isDigB c = true) :
    replaceLeftCL (ds ++ "_left".data) = ds := by
  induction ds with
  | nil => rfl
  | cons d rest ih =>
    have hd := digit_char_props d (h d (by simp))
    rw [List.cons_append, replaceLeftCL_cons_ne d _ hd.1,
      ih (fun c hc => h c (by simp [hc]))]

/-- Deleting `_right` from a digit string followed by `_right` leaves
the digits. -/
theorem replaceRightCL_digits (ds : List Char) (h : ∀ c ∈ ds, isDigB c = true) :
    replaceRightCL (ds ++ "_right".data) = ds := by
  induction ds with
  | nil => rfl
  | cons d rest ih =>
    have hd := digit_char_props d (h d (by simp))
    rw [List.cons_append, replaceRightCL_cons_ne d _ hd.1,
      ih (fun c hc => h c (by simp [hc]))]

/-- Deleting `_left` from a canonical left stem leaves `frame_` and the
digits. -/
theorem replaceLeftCL_canon (ds : List Char) (hne : ds ≠ [])
    (h : ∀ c ∈ ds, isDigB c = true) :
    replaceLeftCL ("frame_".data ++ ds ++ "_left".data) = "frame_".data ++ ds := by
  obtain ⟨d, ds₂, rfl⟩ : ∃ d ds₂, ds = d :: ds₂ := by
    cases ds with
    | nil => exact absurd rfl hne
    | cons d ds₂ => exact ⟨d, ds₂, rfl⟩
  have hd := digit_char_props d (h d (by simp))
  show replaceLeftCL ('f' :: 'r' :: 'a' :: 'm' :: 'e' :: '_' :: d ::
    (ds₂ ++ "_left".data)) = _
  rw [replaceLeftCL_cons_ne 'f' _ (by decide), replaceLeftCL_cons_ne 'r' _ (by decide),
    replaceLeftCL_cons_ne 'a' _ (by decide), replaceLeftCL_cons_ne 'm' _ (by decide),
    replaceLeftCL_cons_ne 'e' _ (by decide),
    replaceLeftCL_underscore_ne d _ hd.2.2.2.2.1]
  rw [show d :: (ds₂ ++ "_left".data) = (d :: ds₂) ++ "_left".data from rfl,
    replaceLeftCL_digits _ h]
  rfl

/-- Deleting `_right` from a canonical right stem leaves `frame_` and
the digits. -/
theorem replaceRightCL_canon (ds : List Char) (hne : ds ≠ [])
    (h : ∀ c ∈ ds, isDigB c = true) :
    replaceRightCL ("frame_".data ++ ds ++ "_right".data) = "frame_".data ++ ds := by
  obtain ⟨d, ds₂, rfl⟩ : ∃ d ds₂, ds = d :: ds₂ := by
    cases ds with
    | nil => exact absurd rfl hne
    | cons d ds₂ => exact ⟨d, ds₂, rfl⟩
  have hd := digit_char_props d (h d (by simp))
  show replaceRightCL ('f' :: 'r' :: 'a' :: 'm' :: 'e' :: '_' :: d ::
    (ds₂ ++ "_right".data)) = _
  rw [replaceRightCL_cons_ne 'f' _ (by decide), replaceRightCL_cons_ne 'r' _ (by decide),
    replaceRightCL_cons_ne 'a' _ (by decide), replaceRightCL_cons_ne 'm' _ (by decide),
    replaceRightCL_cons_ne 'e' _ (by decide),
    replaceRightCL_underscore_ne d _ hd.2.2.2.2.2.1]
  rw [show d :: (ds₂ ++ "_right".data) = (d :: ds₂) ++ "_right".data from rfl,
    replaceRightCL_digits _ h]
  rfl

/-- `Path.stem` strips a final `.png` from a dot-free base name. -/
theorem stemCL_dotpng (X : List Char) (hne : X ≠ []) (hdot : ∀ c ∈ X, c ≠ '.') :
    stemCL (X ++ ".png".data) = X := by
  have hrev : (X ++ ".png".data).reverse = 'g' :: 'n' :: 'p' :: '.' :: X.reverse := by
    rw [List.reverse_append]
    rfl
  have hidx : (X ++ ".png".data).reverse.findIdx? (fun c => c = '.') = some 3 := by
    rw [hrev]
    simp [List.findIdx?_cons]
  have hlen : (X ++ ".png".data).length = X.length + 4 := by simp
  have hX : 0 < X.length := List.length_pos.mpr hne
  unfold stemCL
  rw [hidx]
  simp only [hlen]
  have h1 : X.length + 4 - 1 - 3 = X.length := by omega
  rw [h1, if_pos ⟨hX, by omega⟩, List.take_left]

/-- The digits of a padded canonical index avoid filename punctuation. -/
theorem padZeros_no_dot (i : Nat) :
    ∀ c ∈ padZeros 6 (toDigChars i), c ≠ '.' ∧ c ≠ '_' := by
  intro c hc
  have hdig := padZeros_digits 6 _ (toDigChars_spec i).2.1 c hc
  exact ⟨(digit_char_props c hdig).2.2.2.2.2.2, (digit_char_props c hdig).1⟩

/-- The canonical left name splits as stem plus `.png`. -/
theorem leftNameC_data (i : Nat) :
    (leftNameC i).data =
      ("frame_".data ++ padZeros 6 (toDigChars i) ++ "_left".data) ++ ".png".data := by
  show ("frame_".data ++ padZeros 6 (toDigChars i)) ++ "_left.png".data = _
  rw [show ("_left.png".data : List Char) = "_left".data ++ ".png".data from rfl]
  simp [List.append_assoc]

/-- The canonical right name splits as stem plus `.png`. -/
theorem rightNameC_data (i : Nat) :
    (rightNameC i).data =
      ("frame_".data ++ padZeros 6 (toDigChars i) ++ "_right".data) ++ ".png".data := by
  show ("frame_".data ++ padZeros 6 (toDigChars i)) ++ "_right.png".data = _
  rw [show ("_right.png".data : List Char) = "_right".data ++ ".png".data from rfl]
  simp [List.append_assoc]

/-- The stem of a canonical left name. -/
theorem stem_leftNameC (i : Nat) :
    stemCL (leftNameC i).data =
      "frame_".data ++ padZeros 6 (toDigChars i) ++ "_left".data := by
  rw [leftNameC_data]
  apply stemCL_dotpng
  · simp
  · intro c hc
    simp only [List.append_assoc, List.mem_append] at hc
    rcases hc with h | h | h
    · fin_cases h <;> decide
    · exact (padZeros_no_dot i c h).1
    · fin_cases h <;> decide

/-- The stem of a canonical right name. -/
theorem stem_rightNameC (i : Nat) :
    stemCL (rightNameC i).data =
      "frame_".data ++ padZeros 6 (toDigChars i) ++ "_right".data := by
  rw [rightNameC_data]
  apply stemCL_dotpng
  · simp
  · intro c hc
    simp only [List.append_assoc, List.mem_append] at hc
    rcases hc with h | h | h
    · fin_cases h <;> decide
    · exact (padZeros_no_dot i c h).1
    · fin_cases h <;> decide

/-- Parsing a `frame_` stem made of canonical digits yields the index. -/
theorem frame_index_canon (i : Nat) :
    frame_index_from_stem ⟨"frame_".data ++ padZeros 6 (toDigChars i)⟩ =
      some (i : Int) := by
  unfold frame_index_from_stem
  rw [if_pos ?hpre]
  case hpre =>
    show startsWithCL "frame_".data ("frame_".data ++ padZeros 6 (toDigChars i)) = true
    unfold startsWithCL
    rw [show ("frame_".data : List Char).length = ("frame_".data : List Char).length
      from rfl]
    simp [List.take_left]
  show pyIntL (("frame_".data ++ padZeros 6 (toDigChars i)).drop 6) = _
  rw [show (6 : Nat) = ("frame_".data : List Char).length from rfl, List.drop_left]
  exact pyIntL_pad6 i

/-- A list starts with its own prefix. -/
theorem startsWithCL_append (A B : List Char) : startsWithCL A (A ++ B) = true := by
  unfold startsWithCL
  rw [List.take_left]
  simp

/-- A list ends with its own suffix. -/
theorem endsWithCL_append (A B : List Char) : endsWithCL B (A ++ B) = true := by
  unfold endsWithCL
  have h1 : (A ++ B).length - B.length = A.length := by simp
  rw [h1, List.drop_left]
  simp

/-- Canonical left names match the left-eye glob. -/
theorem matchesLeftGlob_canon (i : Nat) : matchesLeftGlob (leftNameC i) = true := by
  have hs : startsWithCL "frame_".data (leftNameC i).data = true := by
    show startsWithCL "frame_".data
      (("frame_".data ++ padZeros 6 (toDigChars i)) ++ "_left.png".data) = true
    rw [List.append_assoc]
    exact startsWithCL_append _ _
  have he : endsWithCL "_left.png".data (leftNameC i).data = true :=
    endsWithCL_append _ _
  have hl : 15 ≤ (leftNameC i).data.length := by
    show 15 ≤ (("frame_".data ++ padZeros 6 (toDigChars i)) ++ "_left.png".data).length
    simp
  unfold matchesLeftGlob
  rw [hs, he]
  simp only [Bool.true_and]
  exact decide_eq_true hl

/-- Canonical right names match the right-eye glob. -/
theorem matchesRightGlob_canon (i : Nat) : matchesRightGlob (rightNameC i) = true := by
  have hs : startsWithCL "frame_".data (rightNameC i).data = true := by
    show startsWithCL "frame_".data
      (("frame_".data ++ padZeros 6 (toDigChars i)) ++ "_right.png".data) = true
    rw [List.append_assoc]
    exact startsWithCL_append _ _
  have he : endsWithCL "_right.png".data (rightNameC i).data = true :=
    endsWithCL_append _ _
  have hl : 16 ≤ (rightNameC i).data.length := by
    show 16 ≤ (("frame_".data ++ padZeros 6 (toDigChars i)) ++ "_right.png".data).length
    simp
  unfold matchesRightGlob
  rw [hs, he]
  simp only [Bool.true_and]
  exact decide_eq_true hl

/-- A canonical right name does not match the left-eye glob. -/
theorem matchesLeftGlob_rightNameC (j : Nat) :
    matchesLeftGlob (rightNameC j) = false := by
  have hdata : (rightNameC j).data =
      ("frame_".data ++ padZeros 6 (toDigChars j)) ++ "_right.png".data := rfl
  have hdrop : (rightNameC j).data.drop ((rightNameC j).data.length - 9) =
      "right.png".data := by
    rw [hdata]
    have hc : (("frame_".data ++ padZeros 6 (toDigChars j)) ++ "_right.png".data).length
        - 9 = ("frame_".data ++ padZeros 6 (toDigChars j)).length + 1 := by
      simp
    rw [hc, List.drop_append 1]
    rfl
  have hd : decide ((rightNameC j).data.drop
      ((rightNameC j).data.length - ("_left.png".data : List Char).length) =
        "_left.png".data) = false := by
    rw [show (("_left.png".data : List Char)).length = 9 from rfl, hdrop]
    rfl
  unfold matchesLeftGlob endsWithCL
  rw [hd]
  simp

/-- A canonical left name does not match the right-eye glob. -/
theorem matchesRightGlob_leftNameC (i : Nat) :
    matchesRightGlob (leftNameC i) = false := by
  have hdata : (leftNameC i).data =
      ("frame_".data ++ padZeros 6 (toDigChars i)) ++ "_left.png".data := rfl
  have hdrop9 : (leftNameC i).data.drop ((leftNameC i).data.length - 9) =
      "_left.png".data := by
    rw [hdata]
    have hc : (("frame_".data ++ padZeros 6 (toDigChars i)) ++ "_left.png".data).length
        - 9 = ("frame_".data ++ padZeros 6 (toDigChars i)).length := by
      simp
    rw [hc, List.drop_left]
  have hlen : 10 ≤ (leftNameC i).data.length := by
    rw [hdata]
    simp
  have hne : (leftNameC i).data.drop ((leftNameC i).data.length - 10) ≠
      "_right.png".data := by
    intro h
    have h2 := congrArg (List.drop 1) h
    rw [List.drop_drop] at h2
    have h3 : (leftNameC i).data.length - 10 + 1 = (leftNameC i).data.length - 9 := by
      omega
    rw [h3, hdrop9] at h2
    exact absurd h2 (by decide)
  have hd : decide ((leftNameC i).data.drop
      ((leftNameC i).data.length - ("_right.png".data : List Char).length) =
        "_right.png".data) = false := by
    rw [show (("_right.png".data : List Char)).length = 10 from rfl]
    exact decide_eq_false hne
  unfold matchesRightGlob endsWithCL
  rw [hd]
  simp

/-- The full left-glob parsing pipeline recovers a canonical index. -/
theorem leftIdx_of_name (i : Nat) :
    frame_index_from_stem ⟨replaceLeftCL (stemCL (leftNameC i).data)⟩ =
      some (i : Int) := by
  rw [stem_leftNameC,
    replaceLeftCL_canon _ ((toDigChars_spec i).1 |> padZeros_ne_nil 6 _)
      (padZeros_digits 6 _ (toDigChars_spec i).2.1)]
  exact frame_index_canon i

/-- The full right-glob parsing pipeline recovers a canonical index. -/
theorem rightIdx_of_name (i : Nat) :
    frame_index_from_stem ⟨replaceRightCL (stemCL (rightNameC i).data)⟩ =
      some (i : Int) := by
  rw [stem_rightNameC,
    replaceRightCL_canon _ ((toDigChars_spec i).1 |> padZeros_ne_nil 6 _)
      (padZeros_digits 6 _ (toDigChars_spec i).2.1)]
  exact frame_index_canon i

/-- Folding `max` commutes with the cast from `Nat` to `Int`. -/
theorem foldl_max_cast (xs : List Nat) :
    ∀ x : Nat, (xs.map (fun n : Nat => (n : Int))).foldl max (x : Int) =
      ((xs.foldl Nat.max x : Nat) : Int) := by
  induction xs with
  | nil => intro x; rfl
  | cons y ys ih =>
    intro x
    simp only [List.map_cons, List.foldl_cons]
    rw [show max (x : Int) (y : Int) = ((Nat.max x y : Nat) : Int) from
      (Nat.cast_max x y).symm]
    exact ih (Nat.max x y)

/-- `filterMap` by a total function is `map`. -/
theorem filterMap_some_cast (l : List Nat) :
    l.filterMap (fun i : Nat => some ((i : Nat) : Int)) =
      l.map (fun i : Nat => (i : Int)) := by
  induction l with
  | nil => rfl
  | cons x xs ih => simp [List.filterMap_cons, ih]

/-- C2 (counterexample): an output directory holding only the left eye of
frame 5 — a half-rendered frame, not fully rendered — makes the code
initialize the counter to 6, while the claim's fully-rendered rule says
0. -/
theorem next_expected_counts_half_rendered :
    next_expected_index ["frame_000005_left.png"] = 6 ∧
    specNextFullyRendered ["frame_000005_left.png"] = 0 ∧
    (6 : Int) ≠ 0 := by
  refine ⟨by decide, by decide, by decide⟩

set_option maxHeartbeats 1000000 in
/-- C2 (amended): the counter is initialized to one past the highest
frame index for which at least one eye output is present (a
half-rendered frame counts), or 0 when there is none — here stated for
every output directory of canonically named left/right images. -/
theorem next_expected_counts_either_eye (ls rs : List Nat) :
    next_expected_index (ls.map leftNameC ++ rs.map rightNameC) =
      match ls ++ rs with
      | [] => 0
      | x :: xs => ((xs.foldl Nat.max x : Nat) : Int) + 1 := by
  unfold next_expected_index
  rw [List.filter_append, List.filter_append, List.filter_map, List.filter_map,
    List.filter_map, List.filter_map]
  have hl1 : ls.filter (matchesLeftGlob ∘ leftNameC) = ls :=
    List.filter_eq_self.mpr (fun a _ => by
      simp [Function.comp, matchesLeftGlob_canon a])
  have hl2 : rs.filter (matchesLeftGlob ∘ rightNameC) = [] :=
    List.filter_eq_nil_iff.mpr (fun a _ => by
      simp [Function.comp, matchesLeftGlob_rightNameC a])
  have hr1 : ls.filter (matchesRightGlob ∘ leftNameC) = [] :=
    List.filter_eq_nil_iff.mpr (fun a _ => by
      simp [Function.comp, matchesRightGlob_leftNameC a])
  have hr2 : rs.filter (matchesRightGlob ∘ rightNameC) = rs :=
    List.filter_eq_self.mpr (fun a _ => by
      simp [Function.comp, matchesRightGlob_canon a])
  rw [hl1, hl2, hr1, hr2]
  simp only [List.map_nil, List.filterMap_nil, List.append_nil, List.nil_append]
  rw [List.filterMap_map, List.filterMap_map]
  have hfl : ((fun p => frame_index_from_stem ⟨replaceLeftCL (stemCL p.data)⟩) ∘
      leftNameC) = fun i : Nat => some ((i : Nat) : Int) :=
    funext fun i => leftIdx_of_name i
  have hfr : ((fun p => frame_index_from_stem ⟨replaceRightCL (stemCL p.data)⟩) ∘
      rightNameC) = fun i : Nat => some ((i : Nat) : Int) :=
    funext fun i => rightIdx_of_name i
  rw [hfl, hfr, filterMap_some_cast, filterMap_some_cast, ← List.map_append]
  cases h : ls ++ rs with
  | nil => rfl
  | cons x xs =>
    simp only [List.map_cons]
    show (xs.map _).foldl max ((x : Nat) : Int) + 1 = _
    rw [foldl_max_cast]

/-- C10 (amended): each Unordered poll cycle yields frames in ascending
numeric-index order — a subsequence of the `ply_index`-sorted candidate
list — and, when every render succeeds and candidate stems are distinct,
it yields exactly the candidates that survive the already-done and
(watch-mode) stability filters, in that sorted order; the order is not
the lexicographic order of the file names. -/
theorem unordered_yield_index_order :
    (∀ (watch keepTemp : Bool) (meta : String → PlyMeta) (rc : String → Eye → Int)
      (ipd : ℚ) (fs : List (String × Nat)) (outs : List String)
      (seen : List (String × Nat)),
      List.Sublist
        (resolveOrder (process_once watch keepTemp meta rc ipd fs outs seen).trace)
        (list_ply_files fs) ∧
      (resolveOrder (process_once watch keepTemp meta rc ipd fs outs seen).trace).Pairwise
        (fun a b => ply_index a ≤ ply_index b)) ∧
    (∀ (watch keepTemp : Bool) (meta : String → PlyMeta) (rc : String → Eye → Int)
      (ipd : ℚ) (fs : List (String × Nat)) (outs : List String)
      (seen : List (String × Nat)),
      (∀ f e, rc f e = 0) → ((list_ply_files fs).map stemStr).Nodup →
      resolveOrder (process_once watch keepTemp meta rc ipd fs outs seen).trace =
        (list_ply_files fs).filter (fun f => should_process outs f &&
          (!watch || (is_stable seen f (lookupSize fs f)).1))) := by
  constructor
  · intro watch keepTemp meta rc ipd fs outs seen
    have hsub : List.Sublist
        (resolveOrder (process_once watch keepTemp meta rc ipd fs outs seen).trace)
        (list_ply_files fs) := by
      unfold process_once
      by_cases hemp : (list_ply_files fs).isEmpty
      · rw [if_pos hemp]
        exact List.nil_sublist _
      · rw [if_neg hemp]
        exact processFiles_resolveOrder_sublist watch keepTemp meta rc ipd _ fs outs seen
    exact ⟨hsub, List.Pairwise.sublist hsub (list_ply_files_sorted_by_index fs)⟩
  · intro watch keepTemp meta rc ipd fs outs seen hrc hnd
    unfold process_once
    by_cases hemp : (list_ply_files fs).isEmpty
    · rw [if_pos hemp]
      rw [List.isEmpty_iff.mp hemp]
      rfl
    · rw [if_neg hemp]
      exact processFiles_yield_exact watch keepTemp meta rc ipd hrc _ fs outs seen hnd

/-- Closed instance of C10's amended claim: the cycle over
`frame_10.ply` and `frame_2.ply` yields exactly the filtered remainder,
sorted by numeric index. -/
theorem unordered_yield_index_order_witness :
    resolveOrder (process_once true true (fun _ => ⟨none, none⟩) (fun _ _ => 0) 1
        [("frame_10.ply", 5), ("frame_2.ply", 7)] []
        [("frame_10.ply", 5), ("frame_2.ply", 7)]).trace =
      (list_ply_files [("frame_10.ply", 5), ("frame_2.ply", 7)]).filter
        (fun f => should_process [] f &&
          (!true || (is_stable [("frame_10.ply", 5), ("frame_2.ply", 7)] f
            (lookupSize [("frame_10.ply", 5), ("frame_2.ply", 7)] f)).1)) :=
  unordered_yield_index_order.2 true true (fun _ => ⟨none, none⟩) (fun _ _ => 0) 1
    [("frame_10.ply", 5), ("frame_2.ply", 7)] []
    [("frame_10.ply", 5), ("frame_2.ply", 7)] (fun _ _ => rfl) (by decide)

end FourDSplat
